import Mathlib

/-!
# Verification of the repman repository transaction and reconciliation engine

Shallow embedding of the core of `repman` (src/internal/repo.rs, pkg.rs,
aur.rs, common.rs).  Strings are modelled as `List Char`; the file system of
one directory is modelled as a list of path strings; external tools
(gpg, repo-add, repo-remove, rsync, makepkg) are modelled as abstract
outcomes.  Glob matching follows the semantics of the `glob` crate as used
here (patterns contain only literal characters and `*`, matched against
single path components, so `*` matches any run of non-separator characters).
-/

namespace Repman

/-- The suffixes of `s` reachable by letting a glob `*` consume characters
from the front, stopping at a path separator (`*` never crosses a `/`). -/
def starSuffixes : List Char → List (List Char)
  | [] => [[]]
  | c :: cs => (c :: cs) :: (if c = '/' then [] else starSuffixes cs)

/-- Glob matching for the patterns this program builds: every character is a
literal except `*`, which matches any (possibly empty) run of characters
other than the path separator.  (The `glob` crate matches patterns per path
component while walking the directory, so `*` never crosses a `/`.) -/
def globMatch : List Char → List Char → Bool
  | [], s => s.isEmpty
  | p :: ps, s =>
      if p = '*' then (starSuffixes s).any (fun t => globMatch ps t)
      else
        match s with
        | [] => false
        | c :: cs => decide (p = c) && globMatch ps cs

/-- All splits `(l.take k, l.drop k)` of a list, longest prefix first.  Used
to model the greedy, backtracking behaviour of the regex engine. -/
def splitsDesc (l : List Char) : List (List Char × List Char) :=
  ((List.range (l.length + 1)).reverse).map (fun k => (l.take k, l.drop k))

/-- The capture groups of `RE_PKG_FILE`:
`^(.*/)?(.+)-([^-]+)-([^-]+)-([^-]+)(\.pkg\.tar\.[^\.]+)$`
(directory, name, version, release, architecture, extension). -/
structure PkgCaps where
  dir : List Char
  name : List Char
  ver : List Char
  rel : List Char
  arch : List Char
  ext : List Char
deriving DecidableEq, Repr

/-- Matches `([^-]+)-`: the maximal non-empty dash-free run followed by a
literal dash; returns the run and the remainder after the dash.  (Since
`[^-]` cannot match a dash, the greedy run followed by the literal dash is
forced: no backtracking alternatives exist.) -/
def dashField (l : List Char) : Option (List Char × List Char) :=
  let f := l.takeWhile (fun c => c ≠ '-')
  match f, l.dropWhile (fun c => c ≠ '-') with
  | [], _ => none
  | _ :: _, '-' :: rest => some (f, rest)
  | _, _ => none

/-- Matches the final group `(\.pkg\.tar\.[^\.]+)` against the whole list. -/
def isExtGroup : List Char → Bool
  | '.' :: 'p' :: 'k' :: 'g' :: '.' :: 't' :: 'a' :: 'r' :: '.' :: t =>
      !t.isEmpty && t.all (fun c => c ≠ '.')
  | _ => false

/-- Splits `l` into `([^-]+)(\.pkg\.tar\.[^\.]+)` with the greedy (longest)
architecture group, mirroring the regex engine's preference. -/
def archExtSplit (l : List Char) : Option (List Char × List Char) :=
  (splitsDesc l).findSome? fun (p : List Char × List Char) =>
    if !p.1.isEmpty && p.1.all (fun c => c ≠ '-') && isExtGroup p.2 then
      some p
    else none

/-- Parses `(.+)-([^-]+)-([^-]+)-([^-]+)(\.pkg\.tar\.[^\.]+)` — the part of
`RE_PKG_FILE` after the optional directory — with the greedy (longest) name
group tried first, as the regex engine does. -/
def stemParse (l : List Char) :
    Option (List Char × List Char × List Char × List Char × List Char) :=
  (splitsDesc l).findSome? fun (p : List Char × List Char) =>
    if p.1.isEmpty || p.1.any (fun c => c = '\n') then none
    else
      match p.2 with
      | '-' :: r1 =>
        match dashField r1 with
        | none => none
        | some (v, r2) =>
          match dashField r2 with
          | none => none
          | some (rel, r3) =>
            match archExtSplit r3 with
            | none => none
            | some (a, e) => some (p.1, v, rel, a, e)
      | _ => none

/-- The capture semantics of `RE_PKG_FILE` on a whole path: the optional
greedy `(.*/)?` directory group (longest candidate, i.e. up to the last
separator, tried first; group skipped last), then the stem. -/
def rePkgCapture (l : List Char) : Option PkgCaps :=
  (((splitsDesc l).filter fun (p : List Char × List Char) =>
      !p.1.isEmpty && decide (p.1.getLast? = some '/') &&
        p.1.dropLast.all (fun c => c ≠ '\n')) ++ [([], l)]).findSome?
    fun (p : List Char × List Char) =>
      (stemParse p.2).map
        fun (s : List Char × List Char × List Char × List Char × List Char) =>
          ⟨p.1, s.1, s.2.1, s.2.2.1, s.2.2.2.1, s.2.2.2.2⟩

/-- `Pkg::try_from` path validity: the path matches `RE_PKG_FILE`
(existence of the file is checked against the modelled directory listing at
the call sites). -/
def isPkgFilePath (l : List Char) : Bool :=
  (rePkgCapture l).isSome

/-- `Pkg::name`: capture group 2 of `RE_PKG_FILE`. -/
def pkgName (l : List Char) : Option (List Char) :=
  (rePkgCapture l).map PkgCaps.name

/-- `pattern_ignore_version` (src/internal/pkg.rs): the version-agnostic
glob pattern `{dir}{name}-*-*-{arch}{ext}`; the directory is either the
override (with a separator appended) or capture group 1 of the file itself;
fails when the file does not match `RE_PKG_FILE`.  When no override is
given and the file has no directory part, the optional group `(.*/)?` does
not participate, so the source's `captures.get(1).unwrap()` panics — the
panic on that directory-less path is modelled as `none`. -/
def pattern_ignore_version (file : List Char) (dir : Option (List Char)) :
    Option (List Char) :=
  match rePkgCapture file with
  | none => none
  | some c =>
      match dir with
      | some d =>
          some ((d ++ ['/']) ++ c.name ++
            ('-' :: '*' :: '-' :: '*' :: '-' :: []) ++ c.arch ++ c.ext)
      | none =>
          if c.dir.isEmpty then none
          else
            some (c.dir ++ c.name ++ ('-' :: '*' :: '-' :: '*' :: '-' :: []) ++
              c.arch ++ c.ext)

/-- `file_exists_for_pattern`: some file of the directory listing matches
the glob pattern. -/
def file_exists_for_pattern (pattern : List Char) (files : List (List Char)) :
    Bool :=
  files.any (globMatch pattern)

/-- `file_from_pattern`: the first file of the directory listing that
matches the glob pattern (the glob iterator enumerates in a deterministic
order, modelled by list order). -/
def file_from_pattern (pattern : List Char) (files : List (List Char)) :
    Option (List Char) :=
  files.find? (globMatch pattern)

/-- The `.sig` suffix appended to a path to name its detached signature. -/
def sigSuffix : List Char := ['.', 's', 'i', 'g']

/-- Existence check for the tail `([^-]+)(\.pkg\.tar\.[^\.]+)(.sig)?` of the
per-package removal regex in `Pkg::remove_from_dir`: some split into a
non-empty dash-free architecture, an extension group and an optional final
group of one arbitrary character (the unescaped dot) followed by `sig`. -/
def archExtSigOk (l : List Char) : Bool :=
  (splitsDesc l).any fun (p : List Char × List Char) =>
    !p.1.isEmpty && p.1.all (fun c => c ≠ '-') &&
      (isExtGroup p.2 ||
        (match p.2.reverse with
         | 'g' :: 'i' :: 's' :: c :: rest =>
             decide (c ≠ '\n') && isExtGroup rest.reverse
         | _ => false))

/-- An atom of the name region of the removal regex of
`Pkg::remove_from_dir`, into whose *source text* the package name is
spliced: a literal character or the `.` wildcard (any character but a
newline). -/
inductive RAtom where
  | lit (c : Char)
  | dot
deriving DecidableEq, Repr

/-- A tokenized atom of the spliced name with its repetition: bare, `+`
(one or more), `*` (zero or more) or `?` (zero or one). -/
inductive RTok where
  | once (a : RAtom)
  | plus (a : RAtom)
  | star (a : RAtom)
  | opt (a : RAtom)
deriving DecidableEq, Repr

/-- One source character of the spliced package name as a regex atom.  `.`
is the wildcard; a repetition character with no preceding atom, or a
grouping, class, alternation, escape or anchor metacharacter, yields
`none`: such a splice either fails `Regex::new` (which aborts
`Pkg::remove_from_dir` in the source) or uses regex structure the code
never intends — no claim instantiates those names. -/
def atomOf (c : Char) : Option RAtom :=
  if c = '.' then some RAtom.dot
  else if c = '+' || c = '*' || c = '?' || c = '(' || c = ')' || c = '[' ||
      c = ']' || c = '{' || c = '}' || c = '|' || c = '\\' || c = '^' ||
      c = '$' then none
  else some (RAtom.lit c)

/-- Tokenizes the package name as spliced into the removal regex source:
each atom may carry one repetition character.  A repetition directly
following another repetition (e.g. a name ending in `++`) is rejected by
the regex crate (no possessive or lazy quantifiers are modelled).  Each
step consumes at least one character, so `length` fuel suffices. -/
def nameTokensF : Nat → List Char → Option (List RTok)
  | _, [] => some []
  | 0, _ :: _ => none
  | n + 1, c :: rest =>
    match atomOf c with
    | none => none
    | some a =>
      match rest with
      | '+' :: rest2 => (nameTokensF n rest2).map fun ts => RTok.plus a :: ts
      | '*' :: rest2 => (nameTokensF n rest2).map fun ts => RTok.star a :: ts
      | '?' :: rest2 => (nameTokensF n rest2).map fun ts => RTok.opt a :: ts
      | _ => (nameTokensF n rest).map fun ts => RTok.once a :: ts

/-- The tokenized spliced package name. -/
def nameTokens (name : List Char) : Option (List RTok) :=
  nameTokensF name.length name

/-- One regex atom against one input character. -/
def ratomMatch : RAtom → Char → Bool
  | RAtom.lit c, d => decide (c = d)
  | RAtom.dot, d => decide (d ≠ '\n')

/-- All remainders left after the token list consumes a prefix of the
input (match-existence semantics of the regex engine).  Each step removes
a token or an input character, so `tokens + input + 1` fuel suffices. -/
def rtoksConsumeF : Nat → List RTok → List Char → List (List Char)
  | 0, _, _ => []
  | _ + 1, [], l => [l]
  | n + 1, RTok.once a :: ts, l =>
    match l with
    | [] => []
    | c :: cs => if ratomMatch a c then rtoksConsumeF n ts cs else []
  | n + 1, RTok.opt a :: ts, l =>
    (match l with
     | [] => []
     | c :: cs => if ratomMatch a c then rtoksConsumeF n ts cs else []) ++
      rtoksConsumeF n ts l
  | n + 1, RTok.plus a :: ts, l =>
    match l with
    | [] => []
    | c :: cs =>
      if ratomMatch a c then rtoksConsumeF n (RTok.star a :: ts) cs else []
  | n + 1, RTok.star a :: ts, l =>
    rtoksConsumeF n ts l ++
      (match l with
       | [] => []
       | c :: cs =>
         if ratomMatch a c then rtoksConsumeF n (RTok.star a :: ts) cs
         else [])

/-- All remainders after the tokenized name consumes a prefix of `l`. -/
def rtoksConsume (ts : List RTok) (l : List Char) : List (List Char) :=
  rtoksConsumeF (ts.length + l.length + 1) ts l

/-- Existence check for `{name}-([^-]+)-([^-]+)-([^-]+)(ext)(.sig)?` where
`name` is spliced into the regex *source*, so `.` and repetition
characters inside the name keep their regex meaning (a name such as `a.b`
also matches `axb-…`); names whose splice does not tokenize match nothing
here (see `atomOf`). -/
def namedStemOk (name l : List Char) : Bool :=
  match nameTokens name with
  | none => false
  | some ts =>
    (rtoksConsume ts l).any fun r =>
      match r with
      | '-' :: r1 =>
        match dashField r1 with
        | some (_, r2) =>
          match dashField r2 with
          | some (_, r3) => archExtSigOk r3
          | none => false
        | none => false
      | _ => false

/-- The removal regex of `Pkg::remove_from_dir`:
`^(.*/)?{name}-([^-]+)-([^-]+)-([^-]+)(\.pkg\.tar\.[^\.]+)(.sig)?$`
(match existence; `splitsDesc` includes the empty directory split). -/
def matchesNamedPkgOrSig (name l : List Char) : Bool :=
  (splitsDesc l).any fun (p : List Char × List Char) =>
    (p.1.isEmpty ||
      (decide (p.1.getLast? = some '/') &&
        p.1.dropLast.all (fun c => c ≠ '\n'))) && namedStemOk name p.2

/-- `Path::file_name`: the component after the last separator. -/
def fileNameOf (l : List Char) : List Char :=
  (l.reverse.takeWhile (fun c => c ≠ '/')).reverse

/-- `Pkg::remove_from_dir`: delete every file of the directory listing that
matches the glob `pattern_ignore_version(self, dir) ++ "*"` and the
per-package removal regex; fails (like the source's early returns and the
`Pkg::name` panic) when the package path does not parse. -/
def remove_from_dir (pkg dirPath : List Char) (dirFiles : List (List Char)) :
    Option (List (List Char)) :=
  match pattern_ignore_version pkg (some dirPath), pkgName pkg with
  | some pat, some name =>
      some (dirFiles.filter fun f =>
        !(globMatch (pat ++ ['*']) f && matchesNamedPkgOrSig name f))
  | _, _ => none

/-- `Pkg::from_file_ignore_version`: locate the actually-built file via the
version-agnostic pattern of the predicted file (searched in the predicted
file's own directory), then validate it as a package file
(`Pkg::try_from`). -/
def from_file_ignore_version (dirFiles : List (List Char)) (file : List Char) :
    Option (List Char) :=
  match pattern_ignore_version file none with
  | none => none
  | some pat =>
    match file_from_pattern pat dirFiles with
    | none => none
    | some f => if isPkgFilePath f then some f else none

/-- `Pkg::is_signed`: a sibling `<path>.sig` file exists. -/
def Pkg_is_signed (files : List (List Char)) (path : List Char) : Bool :=
  decide ((path ++ sigSuffix) ∈ files)

/-- `Pkg::sign`: return immediately when the package is already signed,
otherwise invoke gpg (an external tool whose success is the abstract
parameter `gpgOk`; on success it creates `<path>.sig`).  The result pairs
the outcome (new directory listing) with whether the signing tool was
invoked. -/
def Pkg_sign (gpgOk : Bool) (files : List (List Char)) (path gpgKey : List Char) :
    Except (List Char) (List (List Char)) × Bool :=
  if Pkg_is_signed files path then (.ok files, false)
  else if gpgOk then (.ok (files ++ [path ++ sigSuffix]), true)
  else (.error (path ++ gpgKey), true)

/-- Events of the per-output processing loop of `Pkg::build`. -/
inductive BAct where
  | skip (predicted : List Char)
  | decideSign (b : Bool)
  | removeOld (pattern : List Char)
  | move (newPath : List Char)
  | signFile (path : List Char)
deriving DecidableEq, Repr

/-- The two directories `Pkg::build` works on: the temporary package
directory holding the artifacts the external build produced, and the
repository directory. -/
structure BuildSt where
  pkgDir : List (List Char)
  repoDir : List (List Char)
deriving DecidableEq, Repr

/-- The signing decision of `Pkg::build` for one output: an explicit
`sign` argument wins; with `sign = None` the file is signed iff a signed
file of the same identity already exists in the repository directory
(`file_exists_for_pattern(pattern_ignore_version(pkg_file, repo_dir) +
SIG_SUFFIX)`). -/
def sign_decision (sign : Option Bool) (sigPattern : List Char)
    (repoFiles : List (List Char)) : Bool :=
  match sign with
  | some b => b
  | none => file_exists_for_pattern sigPattern repoFiles

/-- One iteration of the processing loop of `Pkg::build` for one predicted
output `pkgFile`: locate the produced file (skip with a logged error if it
was not built), decide signing before any file is removed, remove old
same-identity files from the repository directory, move the new file in,
and sign it if so decided (failing when no GPG key is configured). -/
def processOutput (sign : Option Bool) (gpgKey : Option (List Char))
    (gpgOk : Bool) (repoDirPath : List Char) (st : BuildSt)
    (pkgFile : List Char) :
    Except (List Char) (BuildSt × Option (List Char) × List BAct) :=
  match from_file_ignore_version st.pkgDir pkgFile with
  | none => .ok (st, none, [.skip pkgFile])
  | some pkg =>
    match pattern_ignore_version pkgFile (some repoDirPath) with
    | none => .error pkgFile
    | some pat =>
      let toBeSigned : Bool := sign_decision sign (pat ++ sigSuffix) st.repoDir
      match remove_from_dir pkg repoDirPath st.repoDir with
      | none => .error pkg
      | some repoRemoved =>
        let newPath := repoDirPath ++ '/' :: fileNameOf pkg
        let repoMoved := (repoRemoved.filter fun f => f ≠ newPath) ++ [newPath]
        if toBeSigned then
          match gpgKey with
          | none => .error pkgFile
          | some key =>
            match Pkg_sign gpgOk repoMoved newPath key with
            | (.error e, _) => .error e
            | (.ok repoSigned, invoked) =>
                .ok (⟨st.pkgDir.erase pkg, repoSigned⟩, some newPath,
                  [.decideSign true, .removeOld pat, .move newPath] ++
                    (if invoked then [.signFile newPath] else []))
        else
          .ok (⟨st.pkgDir.erase pkg, repoMoved⟩, some newPath,
            [.decideSign false, .removeOld pat, .move newPath])

/-- The processing loop of `Pkg::build` over all predicted outputs,
collecting the successfully processed package paths and the event trace. -/
def buildLoop (sign : Option Bool) (gpgKey : Option (List Char)) (gpgOk : Bool)
    (repoDirPath : List Char) :
    BuildSt → List (List Char) →
      Except (List Char) (BuildSt × List (List Char) × List BAct)
  | st, [] => .ok (st, [], [])
  | st, f :: fs =>
    match processOutput sign gpgKey gpgOk repoDirPath st f with
    | .error e => .error e
    | .ok (st', r, acts) =>
      match buildLoop sign gpgKey gpgOk repoDirPath st' fs with
      | .error e => .error e
      | .ok (st'', ps, acts') =>
          .ok (st'', (match r with | none => ps | some p => p :: ps),
            acts ++ acts')

/-- `Pkg::build`: fail fast when signing is requested without a GPG key,
fail when the PKGBUILD declares no package (`pkgFiles` empty), then run the
external build (modelled by `st.pkgDir` already holding the produced
artifacts) and process each predicted output. -/
def Pkg_build (sign : Option Bool) (gpgKey : Option (List Char)) (gpgOk : Bool)
    (repoDirPath : List Char) (st : BuildSt) (pkgFiles : List (List Char)) :
    Except (List Char) (BuildSt × List (List Char) × List BAct) :=
  if sign = some true && gpgKey.isNone then .error repoDirPath
  else if pkgFiles.isEmpty then .error repoDirPath
  else buildLoop sign gpgKey gpgOk repoDirPath st pkgFiles

/-- Following the spec's words: "Returns the list of successfully processed
package identities" — the predicted outputs that are located via the
version-agnostic glob, each contributing the path the produced file is
moved to, the rest skipped. -/
def successfullyProcessedSpec (repoDirPath : List Char) :
    List (List Char) → List (List Char) → List (List Char)
  | _, [] => []
  | pkgFiles, f :: fs =>
    match from_file_ignore_version pkgFiles f with
    | none => successfullyProcessedSpec repoDirPath pkgFiles fs
    | some pkg =>
        (repoDirPath ++ '/' :: fileNameOf pkg) ::
          successfullyProcessedSpec repoDirPath (pkgFiles.erase pkg) fs

/-- `Repo::lock` (src/internal/repo.rs): the lock file is modelled by its
parsed content (`some pid` when it exists).  If the file exists and holds a
foreign PID the call fails with that PID and the file is left unchanged; if
it holds the current PID the call succeeds without change; otherwise the
file is created holding the current PID.  No liveness check of the recorded
process is performed. -/
def Repo_lock (curPid : Nat) (lockFile : Option Nat) :
    Except Nat Unit × Option Nat :=
  match lockFile with
  | some pid =>
      if pid ≠ curPid then (.error pid, some pid) else (.ok (), some pid)
  | none => (.ok (), some curPid)

/-- Per-base package information retrieved from AUR (`PkgInfo`). -/
structure PkgInfo where
  pkg_base : List Char
  version : List Char
deriving DecidableEq, Repr

/-- A record of the parsed repository database (`repodb_parser` package
entry), restricted to the fields `pkg_updates` reads. -/
structure DbPkg where
  name : List Char
  version : List Char
deriving DecidableEq, Repr

/-- An entry of the update set (`PkgUpd`). -/
structure PkgUpd where
  name : List Char
  old_version : List Char
  new_version : List Char
  pkg_base : List Char
deriving DecidableEq, Repr

/-- `AurData::pkg_updates`: walk the name-to-base map and push an update
entry exactly when `vercmp` places the database version strictly below the
AUR version.  The database and base lookups are total in the source only
because it panics on a miss; a miss is modelled as `none`.  `vercmp` is the
version comparison of the external `alpm` crate and is kept abstract. -/
def pkg_updates (vercmp : List Char → List Char → Ordering)
    (db_pkgs : List Char → Option DbPkg)
    (pkg_infos : List Char → Option PkgInfo) :
    List (List Char × List Char) → Option (List PkgUpd)
  | [] => some []
  | (pkgNameKey, pkgBase) :: rest =>
    match db_pkgs pkgNameKey, pkg_infos pkgBase with
    | some dbPkg, some info =>
      match pkg_updates vercmp db_pkgs pkg_infos rest with
      | none => none
      | some tail =>
        if vercmp dbPkg.version info.version = Ordering.lt then
          some (⟨dbPkg.name, dbPkg.version, info.version, info.pkg_base⟩ :: tail)
        else some tail
    | _, _ => none

/-- Steps observable in a top-level repository operation. -/
inductive Ev where
  | lockAcq
  | download
  | work
  | upload
  | unlock
deriving DecidableEq, Repr

/-- Outcomes of the four steps of a wrapped operation, supplied abstractly
(the lock outcome of `Repo::lock`, the transfer outcomes of the remote
backend, and the outcome of the unit of work). -/
structure StepRes where
  lockRes : Except String Unit
  downloadRes : Except String Unit
  workRes : Except String Unit
  uploadRes : Except String Unit

/-- The control-flow skeleton shared by `Repo::add`, `Repo::update`,
`Repo::remove`, `Repo::sign` and `Repo::clean_up`: the `lock!` macro
(`self.lock()?` plus a deferred `unlock` that runs on every later exit)
followed by `exec_on_repo!` (`self.download()?; W; self.upload()?`), where
an error of any step — including the unit of work `W` — returns early via
`?`.  The trace records each step that was executed (attempted). -/
def mutatingOp (r : StepRes) : List Ev × Except String Unit :=
  match r.lockRes with
  | .error e => ([.lockAcq], .error e)
  | .ok () =>
    match r.downloadRes with
    | .error e => ([.lockAcq, .download, .unlock], .error e)
    | .ok () =>
      match r.workRes with
      | .error e => ([.lockAcq, .download, .work, .unlock], .error e)
      | .ok () =>
        match r.uploadRes with
        | .error e =>
            ([.lockAcq, .download, .work, .upload, .unlock], .error e)
        | .ok () =>
            ([.lockAcq, .download, .work, .upload, .unlock], .ok ())

/-- `Repo::list`: `exec_on_repo!` without the `lock!` macro — the lock is
neither acquired nor released. -/
def listOp (r : StepRes) : List Ev × Except String Unit :=
  match r.downloadRes with
  | .error e => ([.download], .error e)
  | .ok () =>
    match r.workRes with
    | .error e => ([.download, .work], .error e)
    | .ok () =>
      match r.uploadRes with
      | .error e => ([.download, .work, .upload], .error e)
      | .ok () => ([.download, .work, .upload], .ok ())

/-- A record of the repository database (name, version incl. release,
architecture) as read by `Repo::clean_up`. -/
structure DbEntry where
  name : List Char
  version : List Char
  arch : List Char
deriving DecidableEq, Repr

/-- The state `Repo::clean_up` operates on: the parsed database and the
files of the local mirror directory (paths relative to that directory; the
constant directory prefix is elided). -/
structure RepoSt where
  db : List DbEntry
  files : List (List Char)
deriving DecidableEq, Repr

/-- The exact (wildcard-free) path `Pkg::from_meta_data` constructs:
`{name}-{version}-{arch}{ext}` (the version recorded in the database
already contains the release). -/
def exactPkgPath (ext : List Char) (e : DbEntry) : List Char :=
  e.name ++ '-' :: e.version ++ '-' :: e.arch ++ ext

/-- Success of `Pkg::from_meta_data`: the constructed file exists and is a
valid package path (`Pkg::try_from`). -/
def from_meta_data_ok (ext : List Char) (files : List (List Char))
    (e : DbEntry) : Bool :=
  decide (exactPkgPath ext e ∈ files) && isPkgFilePath (exactPkgPath ext e)

/-- The glob of clean-up check 2: `*-*-*-*{ext}`. -/
def pass2Pattern (ext : List Char) : List Char :=
  '*' :: '-' :: '*' :: '-' :: '*' :: '-' :: '*' :: ext

/-- Clean-up check 2 removes a file iff it matches the package glob, parses
as a package file, and its parsed name is absent from the database snapshot
(the `OnceCell`-cached parse taken before check 1's removals). -/
def cleanUpPass2Removes (ext : List Char) (snapNames : List (List Char))
    (f : List Char) : Bool :=
  globMatch (pass2Pattern ext) f &&
    (match rePkgCapture f with
     | some c => !decide (c.name ∈ snapNames)
     | none => false)

/-- The glob of clean-up check 3: `*.sig`. -/
def sigGlob : List Char := '*' :: sigSuffix

/-- `Path::with_extension("")`: drop the part after the last dot of the
file name unless the remaining stem would be empty (a dot-file has no
extension). -/
def withExtensionEmpty (f : List Char) : List Char :=
  match f.reverse.dropWhile (fun c => c ≠ '.') with
  | '.' :: stemRev => if stemRev.isEmpty then f else stemRev.reverse
  | _ => f

/-- Clean-up check 3, iterating over the `*.sig` candidates while deleting
from the live directory: a signature file is removed when its base file
does not currently exist.  Returns the remaining files and the removed
signature files. -/
def cleanUpPass3Go :
    List (List Char) → List (List Char) → List (List Char) →
      List (List Char) × List (List Char)
  | [], cur, removed => (cur, removed.reverse)
  | f :: rest, cur, removed =>
    if globMatch sigGlob f && !decide (withExtensionEmpty f ∈ cur) then
      cleanUpPass3Go rest (cur.erase f) (f :: removed)
    else cleanUpPass3Go rest cur removed

/-- Clean-up check 3 over a directory listing. -/
def cleanUpPass3 (files : List (List Char)) :
    List (List Char) × List (List Char) :=
  cleanUpPass3Go files files []

/-- The result of one `Repo::clean_up` run: the new repository state and
the performed removals (database entries, package files, signature
files). -/
structure CleanRes where
  st : RepoSt
  removedNames : List (List Char)
  removedFiles : List (List Char)
  removedSigs : List (List Char)
deriving DecidableEq, Repr

/-- `Repo::clean_up`: the three checks in their fixed order.  Check 1
removes database entries whose exact package file is missing (the removal
is batched by name); checks 2 and 3 operate on the live file listing, but
check 2 consults the database snapshot parsed before check 1's removal. -/
def Repo_clean_up (ext : List Char) (st : RepoSt) : CleanRes :=
  let snapNames := st.db.map DbEntry.name
  let delNames :=
    (st.db.filter fun e => !(from_meta_data_ok ext st.files e)).map DbEntry.name
  let db1 := st.db.filter fun e => !decide (e.name ∈ delNames)
  let files1 := st.files.filter fun f => !(cleanUpPass2Removes ext snapNames f)
  let removed2 := st.files.filter fun f => cleanUpPass2Removes ext snapNames f
  let p3 := cleanUpPass3 files1
  ⟨⟨db1, p3.1⟩, delNames, removed2, p3.2⟩

/-! ## General lemmas about glob matching -/

theorem self_mem_starSuffixes (s : List Char) : s ∈ starSuffixes s := by
  cases s <;> simp [starSuffixes]

theorem mem_starSuffixes_append (v s : List Char) (hv : '/' ∉ v) :
    s ∈ starSuffixes (v ++ s) := by
  induction v with
  | nil => simpa using self_mem_starSuffixes s
  | cons a v' ih =>
      simp only [List.mem_cons, not_or] at hv
      simp only [List.cons_append, starSuffixes]
      rw [if_neg (fun h => hv.1 h.symm)]
      exact List.mem_cons_of_mem _ (ih hv.2)

theorem globMatch_nil_nil : globMatch [] [] = true := rfl

theorem globMatch_cons_lit (p : Char) (hp : p ≠ '*') (ps s : List Char) :
    globMatch (p :: ps) s =
      (match s with
       | [] => false
       | c :: cs => decide (p = c) && globMatch ps cs) := by
  simp [globMatch, hp]

theorem globMatch_star (ps s : List Char) :
    globMatch ('*' :: ps) s = (starSuffixes s).any (fun t => globMatch ps t) := by
  simp [globMatch]

theorem globMatch_cons_cons (p : Char) (hp : p ≠ '*') (ps : List Char)
    (c : Char) (cs : List Char) :
    globMatch (p :: ps) (c :: cs) = (decide (p = c) && globMatch ps cs) := by
  simp [globMatch, hp]

theorem globMatch_append_lit (l p s : List Char) (hl : '*' ∉ l) :
    globMatch (l ++ p) (l ++ s) = globMatch p s := by
  induction l with
  | nil => rfl
  | cons c cs ih =>
      simp only [List.mem_cons, not_or] at hl
      rw [List.cons_append, List.cons_append,
        globMatch_cons_cons c (fun h => hl.1 h.symm) (cs ++ p) c (cs ++ s)]
      simp [ih hl.2]

theorem globMatch_refl (l : List Char) (hl : '*' ∉ l) :
    globMatch l l = true := by
  have h := globMatch_append_lit l [] [] hl
  simpa using h

theorem globMatch_star_absorb (ps v s : List Char) (hv : '/' ∉ v)
    (h : globMatch ps s = true) : globMatch ('*' :: ps) (v ++ s) = true := by
  rw [globMatch_star]
  exact List.any_eq_true.mpr ⟨s, mem_starSuffixes_append v s hv, h⟩

/-! ## C3 — lock acquisition -/

/-- C3: `Repo::lock` succeeds and creates a lock file holding the current
process ID when none exists; succeeds without change when the existing lock
file holds the current process ID; and fails with the foreign PID, leaving
the lock file unchanged, when it holds any different process ID — the code
performs no liveness check of that process. -/
theorem repo_lock_spec (cur pid : Nat) (h : pid ≠ cur) :
    Repo_lock cur none = (.ok (), some cur) ∧
    Repo_lock cur (some cur) = (.ok (), some cur) ∧
    Repo_lock cur (some pid) = (.error pid, some pid) := by
  refine ⟨rfl, ?_, ?_⟩ <;> simp [Repo_lock, h]

/-- Witness for `repo_lock_spec` at PIDs 1 and 2. -/
theorem repo_lock_spec_witness :
    Repo_lock 1 none = (.ok (), some 1) ∧
    Repo_lock 1 (some 1) = (.ok (), some 1) ∧
    Repo_lock 1 (some 2) = (.error 2, some 2) :=
  repo_lock_spec 1 2 (by decide)

/-! ## C10 — signing an already-signed package is a no-op -/

/-- C10: when the detached signature `<path>.sig` already exists,
`Pkg::sign` returns success without invoking the signing tool (even when
the tool would fail) and without changing any file, for every key. -/
theorem pkg_sign_idempotent (gpgOk : Bool) (files : List (List Char))
    (path key : List Char) (h : Pkg_is_signed files path = true) :
    Pkg_sign gpgOk files path key = (.ok files, false) := by
  simp [Pkg_sign, h]

/-- Witness for `pkg_sign_idempotent` on a concrete signed package. -/
theorem pkg_sign_idempotent_witness :
    Pkg_sign false ["x-1-1-a.pkg.tar.zst".data, "x-1-1-a.pkg.tar.zst.sig".data]
        "x-1-1-a.pkg.tar.zst".data "key".data =
      (.ok ["x-1-1-a.pkg.tar.zst".data, "x-1-1-a.pkg.tar.zst.sig".data],
        false) :=
  pkg_sign_idempotent false _ _ _ (by decide)

/-! ## C1 — transaction wrapper error paths -/

/-- C1 counterexample: with lock, download and upload all able to succeed
but the unit of work failing partway, the upload step is *not* executed —
the `?` inside the `exec_on_repo!` block returns before `self.upload()?`
is reached, contradicting the claim that upload still runs. -/
theorem upload_skipped_on_work_error :
    Ev.upload ∉
      (mutatingOp ⟨.ok (), .ok (), .error "work failed", .ok ()⟩).1 := by
  decide

/-- C1 (amended): if lock acquisition fails, none of download, the unit of
work, or upload is executed; and if lock and download succeed but the unit
of work returns an error partway, upload is *skipped* and the error
propagates (only the deferred unlock still runs). -/
theorem transaction_error_paths (r : StepRes) :
    (∀ e, r.lockRes = .error e → mutatingOp r = ([.lockAcq], .error e)) ∧
    (∀ e, r.lockRes = .ok () → r.downloadRes = .ok () →
      r.workRes = .error e →
      mutatingOp r = ([.lockAcq, .download, .work, .unlock], .error e)) := by
  obtain ⟨l, d, w, u⟩ := r
  constructor
  · intro e he
    cases l with
    | error e' => cases he; rfl
    | ok v => cases he
  · intro e hl hd hw
    cases hl; cases hd; cases hw; rfl

/-- Witness for `transaction_error_paths`: a failing lock runs nothing
else; a failing unit of work skips upload. -/
theorem transaction_error_paths_witness :
    mutatingOp ⟨.error "locked", .ok (), .ok (), .ok ()⟩ =
      ([.lockAcq], .error "locked") ∧
    mutatingOp ⟨.ok (), .ok (), .error "boom", .ok ()⟩ =
      ([.lockAcq, .download, .work, .unlock], .error "boom") :=
  ⟨(transaction_error_paths _).1 "locked" rfl,
    (transaction_error_paths _).2 "boom" rfl rfl rfl⟩

/-! ## C9 — lock ordering around download/upload -/

/-- C9 counterexample: `Repo::list` downloads (and uploads) without ever
acquiring the repository lock, contradicting the claim that the list
operation also locks before downloading. -/
theorem list_downloads_without_lock :
    Ev.lockAcq ∉ (listOp ⟨.ok (), .ok (), .ok (), .ok ()⟩).1 ∧
    Ev.download ∈ (listOp ⟨.ok (), .ok (), .ok (), .ok ()⟩).1 := by
  decide

/-- C9 (amended): for the mutating operations (add, update, remove, sign,
clean-up) the lock is acquired first — before any download — and whenever
upload runs it is immediately followed by the deferred unlock; the list
operation, however, neither acquires nor releases the lock. -/
theorem lock_ordering (r : StepRes) :
    (mutatingOp r).1.head? = some Ev.lockAcq ∧
    (Ev.upload ∈ (mutatingOp r).1 →
      ∃ pre, (mutatingOp r).1 = pre ++ [Ev.upload, Ev.unlock]) ∧
    Ev.lockAcq ∉ (listOp r).1 ∧ Ev.unlock ∉ (listOp r).1 := by
  obtain ⟨l, d, w, u⟩ := r
  refine ⟨?_, ?_, ?_, ?_⟩
  · cases l <;> cases d <;> cases w <;> cases u <;> rfl
  · cases l with
    | error e => intro h; simp [mutatingOp] at h
    | ok v =>
      cases d with
      | error e => intro h; simp [mutatingOp] at h
      | ok v' =>
        cases w with
        | error e => intro h; simp [mutatingOp] at h
        | ok v'' =>
          cases u <;>
            exact fun _ => ⟨[Ev.lockAcq, Ev.download, Ev.work], rfl⟩
  · cases d <;> cases w <;> cases u <;> simp [listOp]
  · cases d <;> cases w <;> cases u <;> simp [listOp]

/-- Witness for `lock_ordering` on an all-successful run. -/
theorem lock_ordering_witness :
    ∃ pre, (mutatingOp ⟨.ok (), .ok (), .ok (), .ok ()⟩).1 =
      pre ++ [Ev.upload, Ev.unlock] :=
  (lock_ordering ⟨.ok (), .ok (), .ok (), .ok ()⟩).2.1 (by decide)

/-! ## C2 — update set membership is strict version-less-than -/

theorem pkg_updates_names_sub (vercmp : List Char → List Char → Ordering)
    (db_pkgs : List Char → Option DbPkg)
    (pkg_infos : List Char → Option PkgInfo)
    (hcoh : ∀ n d, db_pkgs n = some d → d.name = n) :
    ∀ (m : List (List Char × List Char)) (upds : List PkgUpd),
      pkg_updates vercmp db_pkgs pkg_infos m = some upds →
      ∀ u ∈ upds, u.name ∈ m.map Prod.fst := by
  intro m
  induction m with
  | nil =>
      intro upds h u hu
      rw [pkg_updates] at h
      cases h
      exact absurd hu (List.not_mem_nil u)
  | cons p rest ih =>
      obtain ⟨n0, b0⟩ := p
      intro upds h u hu
      rw [pkg_updates] at h
      cases hdb0 : db_pkgs n0 with
      | none => rw [hdb0] at h; cases h
      | some d0 =>
        cases hinfo0 : pkg_infos b0 with
        | none => rw [hdb0, hinfo0] at h; cases h
        | some i0 =>
          cases hrec : pkg_updates vercmp db_pkgs pkg_infos rest with
          | none => rw [hdb0, hinfo0, hrec] at h; cases h
          | some tail =>
            simp only [hdb0, hinfo0, hrec] at h
            by_cases hv : vercmp d0.version i0.version = Ordering.lt
            · rw [if_pos hv] at h
              cases h
              rcases List.mem_cons.mp hu with rfl | hu'
              · simpa using Or.inl (hcoh n0 d0 hdb0)
              · exact List.mem_cons_of_mem _ (ih tail hrec u hu')
            · rw [if_neg hv] at h
              cases h
              exact List.mem_cons_of_mem _ (ih _ hrec u hu)

/-- C2: for a package name mapped to a base by the AUR data and present in
the repository database, the update set of `AurData::pkg_updates` contains
an entry for that name if and only if the database version compares
strictly below the AUR base's version under the (abstract) package version
comparison; equal or greater database versions are never included.  The
hypotheses state that the walk over the name-to-base map succeeded (the
source panics on a missing map entry), that map keys are unique (it models
a `HashMap`), and that a database record is stored under its own name. -/
theorem pkg_updates_mem_iff_lt (vercmp : List Char → List Char → Ordering)
    (db_pkgs : List Char → Option DbPkg)
    (pkg_infos : List Char → Option PkgInfo)
    (hcoh : ∀ n d, db_pkgs n = some d → d.name = n)
    (name base : List Char) (dbp : DbPkg) (info : PkgInfo)
    (hdb : db_pkgs name = some dbp) (hinfo : pkg_infos base = some info) :
    ∀ (m : List (List Char × List Char)) (upds : List PkgUpd),
      (m.map Prod.fst).Nodup → (name, base) ∈ m →
      pkg_updates vercmp db_pkgs pkg_infos m = some upds →
      ((∃ u ∈ upds, u.name = name) ↔
        vercmp dbp.version info.version = Ordering.lt) := by
  intro m
  induction m with
  | nil => intro upds _ hm; exact absurd hm (List.not_mem_nil _)
  | cons p rest ih =>
      obtain ⟨n0, b0⟩ := p
      intro upds hnodup hm h
      rw [pkg_updates] at h
      have hnodup' : (rest.map Prod.fst).Nodup :=
        (List.nodup_cons.mp (by simpa using hnodup)).2
      have hn0mem : n0 ∉ rest.map Prod.fst :=
        (List.nodup_cons.mp (by simpa using hnodup)).1
      cases hdb0 : db_pkgs n0 with
      | none => rw [hdb0] at h; cases h
      | some d0 =>
        cases hinfo0 : pkg_infos b0 with
        | none => rw [hdb0, hinfo0] at h; cases h
        | some i0 =>
          cases hrec : pkg_updates vercmp db_pkgs pkg_infos rest with
          | none => rw [hdb0, hinfo0, hrec] at h; cases h
          | some tail =>
            simp only [hdb0, hinfo0, hrec] at h
            rcases List.mem_cons.mp hm with heq | hmem
            · obtain ⟨rfl, rfl⟩ := Prod.mk.injEq .. ▸ And.intro
                (congrArg Prod.fst heq) (congrArg Prod.snd heq)
              rw [hdb] at hdb0
              injection hdb0 with hd
              subst hd
              rw [hinfo] at hinfo0
              injection hinfo0 with hi
              subst hi
              by_cases hv : vercmp dbp.version info.version = Ordering.lt
              · rw [if_pos hv] at h
                cases h
                refine ⟨fun _ => hv, fun _ => ⟨_, List.mem_cons_self _ _, ?_⟩⟩
                exact hcoh name dbp hdb
              · rw [if_neg hv] at h
                cases h
                refine ⟨?_, fun hv' => absurd hv' hv⟩
                rintro ⟨u, hu, hun⟩
                refine absurd ?_ hn0mem
                have := pkg_updates_names_sub vercmp db_pkgs pkg_infos hcoh
                  rest _ hrec u hu
                rwa [hun] at this
            · have hname_mem : name ∈ rest.map Prod.fst :=
                List.mem_map_of_mem Prod.fst hmem
              have hne : name ≠ n0 := fun hh => hn0mem (hh ▸ hname_mem)
              by_cases hv0 : vercmp d0.version i0.version = Ordering.lt
              · rw [if_pos hv0] at h
                cases h
                have iht := ih tail hnodup' hmem hrec
                constructor
                · rintro ⟨u, hu, hun⟩
                  rcases List.mem_cons.mp hu with rfl | hu'
                  · exact absurd (by rw [← hun]; exact hcoh n0 d0 hdb0) hne
                  · exact iht.mp ⟨u, hu', hun⟩
                · intro hv
                  obtain ⟨u, hu, hun⟩ := iht.mpr hv
                  exact ⟨u, List.mem_cons_of_mem _ hu, hun⟩
              · rw [if_neg hv0] at h
                cases h
                exact ih _ hnodup' hmem hrec

/-- Witness for `pkg_updates_mem_iff_lt` on a one-entry map under a
comparison placing the database version strictly below the AUR version. -/
theorem pkg_updates_mem_iff_lt_witness :
    ∃ u ∈ [PkgUpd.mk "foo".data "1.2-1".data "1.3-1".data "foo".data],
      u.name = "foo".data :=
  (pkg_updates_mem_iff_lt (fun a b => if a = b then Ordering.eq else Ordering.lt)
    (fun n => if n = "foo".data then some ⟨"foo".data, "1.2-1".data⟩ else none)
    (fun b => if b = "foo".data then some ⟨"foo".data, "1.3-1".data⟩ else none)
    (by
      intro n d hnd
      dsimp only at hnd
      by_cases hn : n = "foo".data
      · subst hn
        rw [if_pos rfl] at hnd
        injection hnd with hnd
        rw [← hnd]
      · rw [if_neg hn] at hnd
        cases hnd)
    "foo".data "foo".data ⟨"foo".data, "1.2-1".data⟩ ⟨"foo".data, "1.3-1".data⟩
    (by decide) (by decide)
    [("foo".data, "foo".data)] _ (by decide) (by decide) (by decide)).mpr
    (by decide)

/-! ## C7 — the version-agnostic glob pattern -/

/-- C7 counterexample: the version-agnostic pattern derived for the file
`/repo/foo-1.0-1-x86_64.pkg.tar.zst` (name `foo`) also matches
`/repo/foo-bar-1.0-1-x86_64.pkg.tar.zst`, a file whose package name is
`foo-bar` — a *different* package name — because the glob `*` standing for
the version can absorb a dashed name segment.  This contradicts the claim
that the pattern never matches files of a different package name. -/
theorem pattern_matches_other_name :
    pattern_ignore_version "/repo/foo-1.0-1-x86_64.pkg.tar.zst".data none =
      some "/repo/foo-*-*-x86_64.pkg.tar.zst".data ∧
    globMatch "/repo/foo-*-*-x86_64.pkg.tar.zst".data
      "/repo/foo-bar-1.0-1-x86_64.pkg.tar.zst".data = true ∧
    pkgName "/repo/foo-bar-1.0-1-x86_64.pkg.tar.zst".data =
      some "foo-bar".data ∧
    "foo-bar".data ≠ "foo".data :=
  ⟨by decide, by decide, by decide, by decide⟩

theorem glob_version_agnostic_matches (d n a e v r : List Char)
    (hd : '*' ∉ d) (hn : '*' ∉ n) (ha : '*' ∉ a) (he : '*' ∉ e)
    (hv : '/' ∉ v) (hr : '/' ∉ r) :
    globMatch ((d ++ n ++ ['-']) ++ '*' :: '-' :: '*' :: '-' :: (a ++ e))
      ((d ++ n ++ ['-']) ++ (v ++ '-' :: (r ++ '-' :: (a ++ e)))) = true := by
  have hae : '*' ∉ '-' :: (a ++ e) := by
    simp only [List.mem_cons, List.mem_append, not_or]
    exact ⟨by decide, ha, he⟩
  have h1 : globMatch ('-' :: (a ++ e)) ('-' :: (a ++ e)) = true :=
    globMatch_refl _ hae
  have h2 : globMatch ('*' :: '-' :: (a ++ e)) (r ++ '-' :: (a ++ e)) = true :=
    globMatch_star_absorb _ r _ hr h1
  have h3 : globMatch ('-' :: '*' :: '-' :: (a ++ e))
      ('-' :: (r ++ '-' :: (a ++ e))) = true := by
    rw [globMatch_cons_cons '-' (by decide) _ '-' _]
    simpa using h2
  have h4 : globMatch ('*' :: '-' :: '*' :: '-' :: (a ++ e))
      (v ++ '-' :: (r ++ '-' :: (a ++ e))) = true :=
    globMatch_star_absorb _ v _ hv h3
  have hpre : '*' ∉ d ++ n ++ ['-'] := by
    simp only [List.mem_append, List.mem_cons, not_or]
    exact ⟨⟨hd, hn⟩, by decide⟩
  rw [globMatch_append_lit (d ++ n ++ ['-']) _ _ hpre]
  exact h4

/-- C7 (amended): the version-agnostic pattern produced by
`pattern_ignore_version` replaces the version and the release components
with `*` wildcards and keeps the directory (the override with a separator
appended, or the file's own directory part), name, architecture and
extension; with no override and no directory part the source panics on the
unwrap of the non-participating directory group (modelled as `none`).  The
pattern matches every file of the same directory, name, architecture and
extension in any version and release (e.g. `/repo/foo-1.0-1-…` and
`/repo/foo-2.3-4-…`), and it does not match `/repo/bar-…`; but it is *not*
guaranteed to reject every other package name (see the counterexample: it
matches `/repo/foo-bar-…`), only names of which the given name is not a
dash-prefix. -/
theorem pattern_ignore_version_spec :
    (∀ file c d, rePkgCapture file = some c →
      pattern_ignore_version file (some d) =
        some ((d ++ ['/']) ++ c.name ++
          ('-' :: '*' :: '-' :: '*' :: '-' :: []) ++ c.arch ++ c.ext)) ∧
    (∀ file c, rePkgCapture file = some c → c.dir ≠ [] →
      pattern_ignore_version file none =
        some (c.dir ++ c.name ++ ('-' :: '*' :: '-' :: '*' :: '-' :: []) ++
          c.arch ++ c.ext)) ∧
    (∀ file c, rePkgCapture file = some c → c.dir = [] →
      pattern_ignore_version file none = none) ∧
    (∀ d n a e v r : List Char, '*' ∉ d → '*' ∉ n → '*' ∉ a → '*' ∉ e →
      '/' ∉ v → '/' ∉ r →
      globMatch ((d ++ n ++ ['-']) ++ '*' :: '-' :: '*' :: '-' :: (a ++ e))
        ((d ++ n ++ ['-']) ++ (v ++ '-' :: (r ++ '-' :: (a ++ e)))) = true) ∧
    pattern_ignore_version "/repo/foo-1.0-1-x86_64.pkg.tar.zst".data none =
      some "/repo/foo-*-*-x86_64.pkg.tar.zst".data ∧
    globMatch "/repo/foo-*-*-x86_64.pkg.tar.zst".data
      "/repo/foo-1.0-1-x86_64.pkg.tar.zst".data = true ∧
    globMatch "/repo/foo-*-*-x86_64.pkg.tar.zst".data
      "/repo/foo-2.3-4-x86_64.pkg.tar.zst".data = true ∧
    globMatch "/repo/foo-*-*-x86_64.pkg.tar.zst".data
      "/repo/bar-1.0-1-x86_64.pkg.tar.zst".data = false := by
  refine ⟨?_, ?_, ?_, glob_version_agnostic_matches, by decide, by decide,
    by decide, by decide⟩
  · intro file c d h
    simp only [pattern_ignore_version, h]
  · intro file c h hne
    have hie : c.dir.isEmpty = false := by
      cases hcd : c.dir
      · exact absurd hcd hne
      · rfl
    simp [pattern_ignore_version, h, hie]
  · intro file c h hd
    simp [pattern_ignore_version, h, hd]

/-- Witness for `pattern_ignore_version_spec`: the general matching clause
instantiated at directory `/repo/`, name `foo`, architecture `x86_64`,
version `2.3` and release `4`. -/
theorem pattern_ignore_version_spec_witness :
    globMatch (("/repo/".data ++ "foo".data ++ ['-']) ++
        '*' :: '-' :: '*' :: '-' :: ("x86_64".data ++ ".pkg.tar.zst".data))
      (("/repo/".data ++ "foo".data ++ ['-']) ++
        ("2.3".data ++ '-' :: ("4".data ++ '-' ::
          ("x86_64".data ++ ".pkg.tar.zst".data)))) = true :=
  pattern_ignore_version_spec.2.2.2.1 "/repo/".data "foo".data "x86_64".data
    ".pkg.tar.zst".data "2.3".data "4".data (by decide) (by decide)
    (by decide) (by decide) (by decide) (by decide)

/-! ## Lemmas about the build-processing step -/

theorem pattern_ignore_version_some_of_capture (f d : List Char)
    (h : (rePkgCapture f).isSome = true) :
    ∃ pat, pattern_ignore_version f (some d) = some pat := by
  cases hc : rePkgCapture f with
  | none => rw [hc] at h; simp at h
  | some c => rw [pattern_ignore_version, hc]; exact ⟨_, rfl⟩

theorem from_file_ignore_version_isSome (dirFiles : List (List Char))
    (file pkg : List Char)
    (h : from_file_ignore_version dirFiles file = some pkg) :
    (rePkgCapture file).isSome = true ∧ (rePkgCapture pkg).isSome = true := by
  rw [from_file_ignore_version] at h
  cases hp : pattern_ignore_version file none with
  | none => rw [hp] at h; cases h
  | some pat =>
    simp only [hp] at h
    cases hf : file_from_pattern pat dirFiles with
    | none => simp only [hf] at h; cases h
    | some f0 =>
      simp only [hf] at h
      by_cases hv : isPkgFilePath f0 = true
      · rw [if_pos hv] at h
        injection h with h
        subst h
        refine ⟨?_, by simpa [isPkgFilePath] using hv⟩
        rw [pattern_ignore_version] at hp
        cases hc : rePkgCapture file with
        | none => rw [hc] at hp; cases hp
        | some c => simp
      · rw [if_neg hv] at h; cases h

theorem remove_from_dir_eq (pkg dirPath : List Char) (files : List (List Char))
    (patP : List Char) (cp : PkgCaps)
    (hpatP : pattern_ignore_version pkg (some dirPath) = some patP)
    (hcp : rePkgCapture pkg = some cp) :
    remove_from_dir pkg dirPath files =
      some (files.filter fun f =>
        !(globMatch (patP ++ ['*']) f && matchesNamedPkgOrSig cp.name f)) := by
  simp only [remove_from_dir, hpatP, pkgName, hcp, Option.map_some']

theorem Pkg_sign_ok (files : List (List Char)) (path key : List Char) :
    ∃ rd inv, Pkg_sign true files path key = (.ok rd, inv) ∧
      (∀ x ∈ files, x ∈ rd) ∧
      ((path ++ sigSuffix) ∈ rd ↔
        (Pkg_is_signed files path = true ∨ inv = true)) ∧
      (Pkg_is_signed files path = false → inv = true) := by
  rw [Pkg_sign]
  by_cases h : Pkg_is_signed files path = true
  · rw [if_pos h]
    refine ⟨files, false, rfl, fun x hx => hx,
      ⟨fun _ => Or.inl h, fun _ => of_decide_eq_true h⟩, ?_⟩
    intro hf
    exact absurd (hf ▸ h) (by decide)
  · rw [if_neg h]
    refine ⟨files ++ [path ++ sigSuffix], true, rfl,
      fun x hx => List.mem_append_left _ hx, ?_, fun _ => rfl⟩
    simp

theorem processOutput_not_located (sign : Option Bool)
    (gpgKey : Option (List Char)) (gpgOk : Bool) (repoDirPath : List Char)
    (st : BuildSt) (pkgFile : List Char)
    (hloc : from_file_ignore_version st.pkgDir pkgFile = none) :
    processOutput sign gpgKey gpgOk repoDirPath st pkgFile =
      .ok (st, none, [.skip pkgFile]) := by
  simp [processOutput, hloc]

theorem processOutput_located_spec (sign : Option Bool)
    (key repoDirPath : List Char) (st : BuildSt) (pkgFile pkg : List Char)
    (hloc : from_file_ignore_version st.pkgDir pkgFile = some pkg) :
    ∃ b pat rest rd,
      processOutput sign (some key) true repoDirPath st pkgFile =
        .ok (⟨st.pkgDir.erase pkg, rd⟩,
          some (repoDirPath ++ '/' :: fileNameOf pkg),
          .decideSign b :: .removeOld pat ::
            .move (repoDirPath ++ '/' :: fileNameOf pkg) :: rest) ∧
      (repoDirPath ++ '/' :: fileNameOf pkg) ∈ rd := by
  obtain ⟨hfc, hpc⟩ := from_file_ignore_version_isSome _ _ _ hloc
  obtain ⟨patF, hpatF⟩ :=
    pattern_ignore_version_some_of_capture pkgFile repoDirPath hfc
  obtain ⟨cp, hcp⟩ := Option.isSome_iff_exists.mp hpc
  obtain ⟨patP, hpatP⟩ :=
    pattern_ignore_version_some_of_capture pkg repoDirPath hpc
  have hrm := remove_from_dir_eq pkg repoDirPath st.repoDir patP cp hpatP hcp
  simp only [processOutput, hloc, hpatF, hrm]
  by_cases hd : sign_decision sign (patF ++ sigSuffix) st.repoDir = true
  · rw [if_pos hd]
    obtain ⟨rd, inv, hsig, hsub, _, _⟩ := Pkg_sign_ok
      ((st.repoDir.filter fun f =>
          !(globMatch (patP ++ ['*']) f && matchesNamedPkgOrSig cp.name f)
        ).filter (fun f => f ≠ (repoDirPath ++ '/' :: fileNameOf pkg)) ++
        [repoDirPath ++ '/' :: fileNameOf pkg])
      (repoDirPath ++ '/' :: fileNameOf pkg) key
    simp only [hsig]
    exact ⟨true, patF, _, rd, rfl, hsub _ (by simp)⟩
  · rw [if_neg hd]
    exact ⟨false, patF, [], _, rfl, by simp⟩

/-! ## C5 — old files are removed before the new file is moved in -/

/-- C5: for every located build output, the processing step emits the
removal of older same-identity files strictly before the move of the new
file (the trace is `decideSign …, removeOld …, move …, [signFile …]`), and
the just-moved file is present in the resulting repository directory — it
is never deleted by its own old-file clean-up. -/
theorem build_remove_precedes_move (sign : Option Bool)
    (key repoDirPath : List Char) (st : BuildSt) (pkgFile pkg : List Char)
    (hloc : from_file_ignore_version st.pkgDir pkgFile = some pkg) :
    ∃ b pat rest rd,
      processOutput sign (some key) true repoDirPath st pkgFile =
        .ok (⟨st.pkgDir.erase pkg, rd⟩,
          some (repoDirPath ++ '/' :: fileNameOf pkg),
          .decideSign b :: .removeOld pat ::
            .move (repoDirPath ++ '/' :: fileNameOf pkg) :: rest) ∧
      (repoDirPath ++ '/' :: fileNameOf pkg) ∈ rd :=
  processOutput_located_spec sign key repoDirPath st pkgFile pkg hloc

/-- Witness for `build_remove_precedes_move` on a concrete build of `foo`. -/
theorem build_remove_precedes_move_witness :
    ∃ b pat rest rd,
      processOutput (some false) (some "k".data) true "/repo".data
          ⟨["/tmp/p/foo-1.0-1-x86_64.pkg.tar.zst".data], []⟩
          "/tmp/p/foo-1.0-1-x86_64.pkg.tar.zst".data =
        .ok (⟨["/tmp/p/foo-1.0-1-x86_64.pkg.tar.zst".data].erase
            "/tmp/p/foo-1.0-1-x86_64.pkg.tar.zst".data, rd⟩,
          some ("/repo".data ++ '/' ::
            fileNameOf "/tmp/p/foo-1.0-1-x86_64.pkg.tar.zst".data),
          .decideSign b :: .removeOld pat ::
            .move ("/repo".data ++ '/' ::
              fileNameOf "/tmp/p/foo-1.0-1-x86_64.pkg.tar.zst".data) ::
            rest) ∧
      ("/repo".data ++ '/' ::
        fileNameOf "/tmp/p/foo-1.0-1-x86_64.pkg.tar.zst".data) ∈ rd :=
  build_remove_precedes_move (some false) "k".data "/repo".data
    ⟨["/tmp/p/foo-1.0-1-x86_64.pkg.tar.zst".data], []⟩
    "/tmp/p/foo-1.0-1-x86_64.pkg.tar.zst".data
    "/tmp/p/foo-1.0-1-x86_64.pkg.tar.zst".data (by decide)

/-! ## C6 — missing predicted outputs are skipped, not fatal -/

theorem buildLoop_refines (sign : Option Bool) (key repoDirPath : List Char) :
    ∀ (outs : List (List Char)) (st : BuildSt),
      ∃ st' acts,
        buildLoop sign (some key) true repoDirPath st outs =
          .ok (st', successfullyProcessedSpec repoDirPath st.pkgDir outs,
            acts) := by
  intro outs
  induction outs with
  | nil => intro st; exact ⟨st, [], rfl⟩
  | cons f fs ih =>
    intro st
    cases hloc : from_file_ignore_version st.pkgDir f with
    | none =>
      obtain ⟨st', acts', hrec⟩ := ih st
      refine ⟨st', [BAct.skip f] ++ acts', ?_⟩
      simp only [buildLoop,
        processOutput_not_located sign (some key) true repoDirPath st f hloc,
        hrec, successfullyProcessedSpec, hloc]
    | some pkg =>
      obtain ⟨b, pat, rest, rd, hpo, hmem⟩ :=
        processOutput_located_spec sign key repoDirPath st f pkg hloc
      obtain ⟨st', acts', hrec⟩ := ih ⟨st.pkgDir.erase pkg, rd⟩
      refine ⟨st',
        (BAct.decideSign b :: BAct.removeOld pat ::
          BAct.move (repoDirPath ++ '/' :: fileNameOf pkg) :: rest) ++ acts',
        ?_⟩
      simp only [buildLoop, hpo, hrec, successfullyProcessedSpec, hloc]

/-- C6: with a configured GPG key and a working signing tool, a build whose
predicted output list is non-empty never aborts because a predicted output
was not produced: each missing output is skipped (with a logged `skip`
event) and processing continues, and `Pkg::build` returns exactly the
successfully processed package identities — the outputs located via their
version-agnostic pattern — which are the only ones callers add to the
database. -/
theorem pkg_build_partial_tolerance (sign : Option Bool)
    (key repoDirPath : List Char) (st : BuildSt) (outs : List (List Char))
    (hne : outs ≠ []) :
    ∃ st' acts,
      Pkg_build sign (some key) true repoDirPath st outs =
        .ok (st', successfullyProcessedSpec repoDirPath st.pkgDir outs,
          acts) := by
  obtain ⟨st', acts, h⟩ := buildLoop_refines sign key repoDirPath outs st
  refine ⟨st', acts, ?_⟩
  rw [Pkg_build, if_neg (by simp), if_neg (by simpa using hne)]
  exact h

/-- Witness for `pkg_build_partial_tolerance`: two predicted outputs of
which only one was produced yield exactly one processed identity, without
aborting. -/
theorem pkg_build_partial_tolerance_witness :
    (∃ st' acts,
      Pkg_build none (some "k".data) true "/repo".data
          ⟨["/tmp/p/foo-1.0-1-x86_64.pkg.tar.zst".data], []⟩
          ["/tmp/p/foo-1.0-1-x86_64.pkg.tar.zst".data,
            "/tmp/p/foo-debug-1.0-1-x86_64.pkg.tar.zst".data] =
        .ok (st', successfullyProcessedSpec "/repo".data
          ["/tmp/p/foo-1.0-1-x86_64.pkg.tar.zst".data]
          ["/tmp/p/foo-1.0-1-x86_64.pkg.tar.zst".data,
            "/tmp/p/foo-debug-1.0-1-x86_64.pkg.tar.zst".data], acts)) ∧
    successfullyProcessedSpec "/repo".data
        ["/tmp/p/foo-1.0-1-x86_64.pkg.tar.zst".data]
        ["/tmp/p/foo-1.0-1-x86_64.pkg.tar.zst".data,
          "/tmp/p/foo-debug-1.0-1-x86_64.pkg.tar.zst".data] =
      ["/repo/foo-1.0-1-x86_64.pkg.tar.zst".data] :=
  ⟨pkg_build_partial_tolerance none "k".data "/repo".data
      ⟨["/tmp/p/foo-1.0-1-x86_64.pkg.tar.zst".data], []⟩ _ (by decide),
    by decide⟩

/-! ## C4 — sticky signing decision -/

/-- C4: for a located build output, with `sign = Some(x)` the produced file
ends up signed iff `x`; with `sign = None` it ends up signed iff a
signature file matching the version-agnostic pattern of the same identity
existed in the destination directory *before* the old files were removed
(the decision is evaluated on the pre-removal listing, and the removal step
purges any stale signature of the new path).  The side conditions state
that the located package parses and that its new signature path matches the
removal glob and regex of its own identity. -/
theorem build_sticky_signing (sign : Option Bool)
    (key repoDirPath : List Char) (st : BuildSt)
    (pkgFile pkg patF patP : List Char) (cp : PkgCaps)
    (hloc : from_file_ignore_version st.pkgDir pkgFile = some pkg)
    (hpatF : pattern_ignore_version pkgFile (some repoDirPath) = some patF)
    (hpatP : pattern_ignore_version pkg (some repoDirPath) = some patP)
    (hcp : rePkgCapture pkg = some cp)
    (hg2 : globMatch (patP ++ ['*'])
        ((repoDirPath ++ '/' :: fileNameOf pkg) ++ sigSuffix) = true)
    (hg3 : matchesNamedPkgOrSig cp.name
        ((repoDirPath ++ '/' :: fileNameOf pkg) ++ sigSuffix) = true) :
    ∃ st' acts,
      processOutput sign (some key) true repoDirPath st pkgFile =
        .ok (st', some (repoDirPath ++ '/' :: fileNameOf pkg), acts) ∧
      BAct.decideSign
          (sign_decision sign (patF ++ sigSuffix) st.repoDir) ∈ acts ∧
      (((repoDirPath ++ '/' :: fileNameOf pkg) ++ sigSuffix) ∈ st'.repoDir ↔
        sign_decision sign (patF ++ sigSuffix) st.repoDir = true) := by
  have hrm := remove_from_dir_eq pkg repoDirPath st.repoDir patP cp hpatP hcp
  simp only [processOutput, hloc, hpatF, hrm]
  set newPath := repoDirPath ++ '/' :: fileNameOf pkg with hNPdef
  have hsig_notin :
      (newPath ++ sigSuffix) ∉
        ((st.repoDir.filter fun f =>
            !(globMatch (patP ++ ['*']) f && matchesNamedPkgOrSig cp.name f)
          ).filter (fun f => f ≠ newPath) ++ [newPath]) := by
    intro hmem
    rcases List.mem_append.mp hmem with h1 | h1
    · have h3 := List.of_mem_filter (List.mem_of_mem_filter h1)
      simp [hg2, hg3] at h3
    · have hlen := congrArg List.length (List.mem_singleton.mp h1)
      simp [sigSuffix] at hlen
  by_cases hd : sign_decision sign (patF ++ sigSuffix) st.repoDir = true
  · rw [if_pos hd]
    obtain ⟨rd, inv, hsig, hsub, hiff, hinv⟩ := Pkg_sign_ok
      ((st.repoDir.filter fun f =>
          !(globMatch (patP ++ ['*']) f && matchesNamedPkgOrSig cp.name f)
        ).filter (fun f => f ≠ newPath) ++ [newPath]) newPath key
    simp only [hsig]
    refine ⟨_, _, rfl, ?_, ?_⟩
    · rw [hd]
      exact List.mem_cons_self _ _
    · refine ⟨fun _ => hd, fun _ => ?_⟩
      refine hiff.mpr (Or.inr (hinv ?_))
      exact Bool.eq_false_iff.mpr
        (fun hh => hsig_notin (of_decide_eq_true hh))
  · rw [if_neg hd]
    refine ⟨_, _, rfl, ?_, ?_⟩
    · rw [Bool.eq_false_iff.mpr hd]
      exact List.mem_cons_self _ _
    · exact ⟨fun hm => absurd hm hsig_notin, fun hdd => absurd hdd hd⟩

/-- Witness for `build_sticky_signing`: updating `foo` whose old version in
the repository directory is signed, with `sign = None` (an update). -/
theorem build_sticky_signing_witness :
    ∃ st' acts,
      processOutput none (some "k".data) true "/repo".data
          ⟨["/tmp/p/foo-1.0-1-x86_64.pkg.tar.zst".data],
            ["/repo/foo-0.9-1-x86_64.pkg.tar.zst".data,
              "/repo/foo-0.9-1-x86_64.pkg.tar.zst.sig".data]⟩
          "/tmp/p/foo-1.0-1-x86_64.pkg.tar.zst".data =
        .ok (st', some ("/repo".data ++ '/' ::
          fileNameOf "/tmp/p/foo-1.0-1-x86_64.pkg.tar.zst".data), acts) ∧
      BAct.decideSign
          (sign_decision none ("/repo/foo-*-*-x86_64.pkg.tar.zst".data ++
            sigSuffix)
            ["/repo/foo-0.9-1-x86_64.pkg.tar.zst".data,
              "/repo/foo-0.9-1-x86_64.pkg.tar.zst.sig".data]) ∈ acts ∧
      ((("/repo".data ++ '/' ::
          fileNameOf "/tmp/p/foo-1.0-1-x86_64.pkg.tar.zst".data) ++
          sigSuffix) ∈ st'.repoDir ↔
        sign_decision none ("/repo/foo-*-*-x86_64.pkg.tar.zst".data ++
            sigSuffix)
          ["/repo/foo-0.9-1-x86_64.pkg.tar.zst".data,
            "/repo/foo-0.9-1-x86_64.pkg.tar.zst.sig".data] = true) :=
  build_sticky_signing none "k".data "/repo".data
    ⟨["/tmp/p/foo-1.0-1-x86_64.pkg.tar.zst".data],
      ["/repo/foo-0.9-1-x86_64.pkg.tar.zst".data,
        "/repo/foo-0.9-1-x86_64.pkg.tar.zst.sig".data]⟩
    "/tmp/p/foo-1.0-1-x86_64.pkg.tar.zst".data
    "/tmp/p/foo-1.0-1-x86_64.pkg.tar.zst".data
    "/repo/foo-*-*-x86_64.pkg.tar.zst".data
    "/repo/foo-*-*-x86_64.pkg.tar.zst".data
    ⟨"/tmp/p/".data, "foo".data, "1.0".data, "1".data, "x86_64".data,
      ".pkg.tar.zst".data⟩
    (by decide) (by decide) (by decide) (by decide) (by decide) (by decide)

/-! ## C8 — clean-up convergence -/

theorem cleanUpPass3Go_subset :
    ∀ (cand cur rem : List (List Char)) (x : List Char),
      x ∈ (cleanUpPass3Go cand cur rem).1 → x ∈ cur := by
  intro cand
  induction cand with
  | nil => intro cur rem x hx; simpa [cleanUpPass3Go] using hx
  | cons f rest ih =>
    intro cur rem x hx
    rw [cleanUpPass3Go] at hx
    by_cases hg : (globMatch sigGlob f &&
        !decide (withExtensionEmpty f ∈ cur)) = true
    · rw [if_pos hg] at hx
      exact (List.erase_subset _ _) (ih _ _ x hx)
    · rw [if_neg hg] at hx
      exact ih _ _ x hx

theorem cleanUpPass3Go_keep_nonsig :
    ∀ (cand cur rem : List (List Char)) (x : List Char),
      globMatch sigGlob x = false → x ∈ cur →
      x ∈ (cleanUpPass3Go cand cur rem).1 := by
  intro cand
  induction cand with
  | nil => intro cur rem x _ hx; simpa [cleanUpPass3Go] using hx
  | cons f rest ih =>
    intro cur rem x hxs hx
    rw [cleanUpPass3Go]
    by_cases hg : (globMatch sigGlob f &&
        !decide (withExtensionEmpty f ∈ cur)) = true
    · rw [if_pos hg]
      have hfs : globMatch sigGlob f = true := by
        have hg' := hg
        rw [Bool.and_eq_true] at hg'
        exact hg'.1
      have hxf : x ≠ f := fun hh => by rw [hh, hfs] at hxs; cases hxs
      exact ih _ _ x hxs (List.mem_erase_of_ne hxf |>.mpr hx)
    · rw [if_neg hg]
      exact ih _ _ x hxs hx

theorem cleanUpPass3Go_nodup :
    ∀ (cand cur rem : List (List Char)), cur.Nodup →
      (cleanUpPass3Go cand cur rem).1.Nodup := by
  intro cand
  induction cand with
  | nil => intro cur rem h; simpa [cleanUpPass3Go] using h
  | cons f rest ih =>
    intro cur rem h
    rw [cleanUpPass3Go]
    by_cases hg : (globMatch sigGlob f &&
        !decide (withExtensionEmpty f ∈ cur)) = true
    · rw [if_pos hg]; exact ih _ _ (h.erase f)
    · rw [if_neg hg]; exact ih _ _ h

theorem cleanUpPass3Go_noop :
    ∀ (cand cur rem : List (List Char)),
      (∀ f ∈ cand, globMatch sigGlob f = true → withExtensionEmpty f ∈ cur) →
      cleanUpPass3Go cand cur rem = (cur, rem.reverse) := by
  intro cand
  induction cand with
  | nil => intro cur rem _; rw [cleanUpPass3Go]
  | cons f rest ih =>
    intro cur rem h
    rw [cleanUpPass3Go]
    have hg : (globMatch sigGlob f &&
        !decide (withExtensionEmpty f ∈ cur)) = false := by
      by_cases hfs : globMatch sigGlob f = true
      · rw [hfs]
        simp [h f (List.mem_cons_self f rest) hfs]
      · rw [Bool.eq_false_iff.mpr hfs]
        rfl
    rw [hg]
    simp only [Bool.false_eq_true, if_false]
    exact ih _ _ (fun g hg' => h g (List.mem_cons_of_mem f hg'))

theorem cleanUpPass3Go_sig_closed :
    ∀ (cand cur rem : List (List Char)),
      cur.Nodup →
      (∀ y ∈ cur, globMatch sigGlob y = true →
        globMatch sigGlob (withExtensionEmpty y) = false) →
      (∀ y ∈ cur, globMatch sigGlob y = true → y ∉ cand →
        withExtensionEmpty y ∈ cur) →
      ∀ x ∈ (cleanUpPass3Go cand cur rem).1, globMatch sigGlob x = true →
        withExtensionEmpty x ∈ (cleanUpPass3Go cand cur rem).1 := by
  intro cand
  induction cand with
  | nil =>
    intro cur rem _ _ h3 x hx hxs
    rw [cleanUpPass3Go] at hx ⊢
    exact h3 x hx hxs (List.not_mem_nil x)
  | cons f rest ih =>
    intro cur rem hnd hW4 h3 x hx hxs
    rw [cleanUpPass3Go] at hx ⊢
    by_cases hg : (globMatch sigGlob f &&
        !decide (withExtensionEmpty f ∈ cur)) = true
    · rw [if_pos hg] at hx ⊢
      have hfs : globMatch sigGlob f = true := by
        have hg' := hg
        rw [Bool.and_eq_true] at hg'
        exact hg'.1
      refine ih (cur.erase f) (f :: rem) (hnd.erase f) ?_ ?_ x hx hxs
      · intro y hy hys
        exact hW4 y (List.mem_of_mem_erase hy) hys
      · intro y hy hys hyrest
        have hy' := (List.Nodup.mem_erase_iff hnd).mp hy
        have hbase : withExtensionEmpty y ∈ cur := by
          refine h3 y hy'.2 hys ?_
          intro hmem
          rcases List.mem_cons.mp hmem with h | h
          · exact hy'.1 h
          · exact hyrest h
        refine (List.mem_erase_of_ne ?_).mpr hbase
        intro hh
        have hw := hW4 y hy'.2 hys
        simp [hh, hfs] at hw
    · rw [if_neg hg] at hx ⊢
      refine ih cur rem hnd hW4 ?_ x hx hxs
      intro y hy hys hyrest
      by_cases hyf : y = f
      · subst hyf
        by_cases hb : withExtensionEmpty y ∈ cur
        · exact hb
        · exact absurd (by rw [hys, decide_eq_false hb]; rfl) hg
      · refine h3 y hy hys ?_
        intro hmem
        rcases List.mem_cons.mp hmem with h | h
        · exact hyf h
        · exact hyrest h

theorem cleanUpPass3_sig_closed (files : List (List Char))
    (hnd : files.Nodup)
    (hW4 : ∀ f ∈ files, globMatch sigGlob f = true →
      globMatch sigGlob (withExtensionEmpty f) = false) :
    ∀ x ∈ (cleanUpPass3 files).1, globMatch sigGlob x = true →
      withExtensionEmpty x ∈ (cleanUpPass3 files).1 := by
  intro x hx hxs
  rw [cleanUpPass3] at hx ⊢
  exact cleanUpPass3Go_sig_closed files files [] hnd hW4
    (fun y hy _ hmem => absurd hy hmem) x hx hxs

theorem mem_db1_ok (ext : List Char) (D : List DbEntry)
    (F : List (List Char)) (e : DbEntry)
    (he : e ∈ D.filter fun e => !decide (e.name ∈
      (D.filter fun e => !(from_meta_data_ok ext F e)).map DbEntry.name)) :
    e ∈ D ∧ from_meta_data_ok ext F e = true := by
  have h1 := List.mem_of_mem_filter he
  have h2 := List.of_mem_filter he
  simp only [Bool.not_eq_true', decide_eq_false_iff_not] at h2
  refine ⟨h1, ?_⟩
  by_contra hok
  have hokf : from_meta_data_ok ext F e = false := Bool.eq_false_iff.mpr hok
  have hmem : e ∈ D.filter (fun e => !(from_meta_data_ok ext F e)) :=
    List.mem_filter.mpr ⟨h1, by simp [hokf]⟩
  exact h2 (List.mem_map_of_mem DbEntry.name hmem)

theorem exact_survives (ext : List Char) (snapNames : List (List Char))
    (F : List (List Char)) (e : DbEntry) (c : PkgCaps)
    (hmemF : exactPkgPath ext e ∈ F)
    (hc : rePkgCapture (exactPkgPath ext e) = some c)
    (hcn : c.name = e.name)
    (hsnap : e.name ∈ snapNames)
    (hsig : globMatch sigGlob (exactPkgPath ext e) = false) :
    exactPkgPath ext e ∈
      (cleanUpPass3 (F.filter fun f =>
        !(cleanUpPass2Removes ext snapNames f))).1 := by
  have hp2 : cleanUpPass2Removes ext snapNames (exactPkgPath ext e) = false := by
    simp [cleanUpPass2Removes, hc, hcn, hsnap]
  have hmem1 : exactPkgPath ext e ∈
      F.filter (fun f => !(cleanUpPass2Removes ext snapNames f)) :=
    List.mem_filter.mpr ⟨hmemF, by simp [hp2]⟩
  rw [cleanUpPass3]
  exact cleanUpPass3Go_keep_nonsig _ _ [] _ hsig hmem1

theorem run_pass1_invariant (ext : List Char) (st : RepoSt)
    (W2 : ∀ e ∈ st.db, ∀ c,
      rePkgCapture (exactPkgPath ext e) = some c → c.name = e.name)
    (W3 : ∀ e ∈ st.db, globMatch sigGlob (exactPkgPath ext e) = false) :
    ∀ e ∈ (Repo_clean_up ext st).st.db,
      from_meta_data_ok ext (Repo_clean_up ext st).st.files e = true := by
  intro e he
  obtain ⟨heD, hok⟩ := mem_db1_ok ext st.db st.files e he
  have hok' := hok
  simp only [from_meta_data_ok, Bool.and_eq_true, decide_eq_true_eq,
    isPkgFilePath] at hok'
  obtain ⟨c, hc⟩ := Option.isSome_iff_exists.mp hok'.2
  have hsurv : exactPkgPath ext e ∈ (Repo_clean_up ext st).st.files :=
    exact_survives ext (st.db.map DbEntry.name) st.files e c hok'.1 hc
      (W2 e heD c hc) (List.mem_map_of_mem DbEntry.name heD) (W3 e heD)
  simp [from_meta_data_ok, hsurv, isPkgFilePath, hc]

theorem run_pass3_closed (ext : List Char) (st : RepoSt)
    (W1 : st.files.Nodup)
    (W4 : ∀ f ∈ st.files, globMatch sigGlob f = true →
      globMatch sigGlob (withExtensionEmpty f) = false) :
    ∀ f ∈ (Repo_clean_up ext st).st.files, globMatch sigGlob f = true →
      withExtensionEmpty f ∈ (Repo_clean_up ext st).st.files := by
  intro f hf hfs
  exact cleanUpPass3_sig_closed _ (W1.filter _)
    (fun g hg hgs => W4 g (List.mem_of_mem_filter hg) hgs) f hf hfs

theorem run_files_subset (ext : List Char) (st : RepoSt) :
    ∀ f ∈ (Repo_clean_up ext st).st.files, f ∈ st.files := by
  intro f hf
  have hf' : f ∈ (cleanUpPass3 (st.files.filter fun f =>
      !(cleanUpPass2Removes ext (st.db.map DbEntry.name) f))).1 := hf
  rw [cleanUpPass3] at hf'
  exact List.mem_of_mem_filter (cleanUpPass3Go_subset _ _ _ f hf')

theorem run_db_subset (ext : List Char) (st : RepoSt) :
    ∀ e ∈ (Repo_clean_up ext st).st.db, e ∈ st.db := by
  intro e he
  exact List.mem_of_mem_filter he

theorem run_files_nodup (ext : List Char) (st : RepoSt)
    (W1 : st.files.Nodup) : (Repo_clean_up ext st).st.files.Nodup :=
  cleanUpPass3Go_nodup _ _ _ (W1.filter _)

theorem run_db_eq_of_ok (ext : List Char) (st : RepoSt)
    (h1 : ∀ e ∈ st.db, from_meta_data_ok ext st.files e = true) :
    (Repo_clean_up ext st).st.db = st.db := by
  show st.db.filter (fun e => !decide (e.name ∈
    (st.db.filter fun e => !(from_meta_data_ok ext st.files e)).map
      DbEntry.name)) = st.db
  have hnil : st.db.filter (fun e => !(from_meta_data_ok ext st.files e)) = [] :=
    List.filter_eq_nil_iff.mpr (fun e he => by simp [h1 e he])
  rw [hnil]
  simp

theorem clean_up_noop (ext : List Char) (st : RepoSt)
    (h1 : ∀ e ∈ st.db, from_meta_data_ok ext st.files e = true)
    (h2 : ∀ f ∈ st.files,
      cleanUpPass2Removes ext (st.db.map DbEntry.name) f = false)
    (h3 : ∀ f ∈ st.files, globMatch sigGlob f = true →
      withExtensionEmpty f ∈ st.files) :
    Repo_clean_up ext st = ⟨st, [], [], []⟩ := by
  have hfil1 : st.db.filter (fun e => !(from_meta_data_ok ext st.files e)) = [] :=
    List.filter_eq_nil_iff.mpr (fun e he => by simp [h1 e he])
  have hfil2 : st.files.filter (fun f =>
      !(cleanUpPass2Removes ext (st.db.map DbEntry.name) f)) = st.files :=
    List.filter_eq_self.mpr (fun f hf => by simp [h2 f hf])
  have hrm2 : st.files.filter (fun f =>
      cleanUpPass2Removes ext (st.db.map DbEntry.name) f) = [] :=
    List.filter_eq_nil_iff.mpr (fun f hf => by simp [h2 f hf])
  have hp3 : cleanUpPass3 st.files = (st.files, []) := by
    rw [cleanUpPass3]
    exact cleanUpPass3Go_noop st.files st.files [] h3
  simp only [Repo_clean_up, hfil1, hfil2, hrm2, hp3]
  simp

/-- C8 counterexample: on a repository whose database contains `foo` at
version `1.0-1` while the mirror holds only `foo-2.0-1-x86_64.pkg.tar.zst`,
the first clean-up removes the database entry but keeps the file (check 2
consults the database snapshot parsed before check 1's removal), and the
*second* run then deletes the file — so the state after one run is not a
fixed point and the second run is not free of deletions. -/
theorem clean_up_not_idempotent :
    (Repo_clean_up ".pkg.tar.zst".data
        (Repo_clean_up ".pkg.tar.zst".data
          ⟨[⟨"foo".data, "1.0-1".data, "x86_64".data⟩],
            ["foo-2.0-1-x86_64.pkg.tar.zst".data]⟩).st).removedFiles =
      ["foo-2.0-1-x86_64.pkg.tar.zst".data] := by
  decide

/-- C8 (amended): the three-pass clean-up converges after two runs, not
one: because check 2 consults the database snapshot parsed before check 1's
removals, a file whose database entry was removed in the same run survives
it and is only deleted by the next run; the state reached after *two*
consecutive runs is a fixed point — a third run performs no deletions and
no database removals.  The well-formedness hypotheses: mirror listing
without duplicates, each database entry's exact path parses back to its own
name, no exact path looks like a signature file, and no signature file's
base is itself a signature file. -/
theorem clean_up_two_runs_fixed_point (ext : List Char) (st : RepoSt)
    (W1 : st.files.Nodup)
    (W2 : ∀ e ∈ st.db, ∀ c,
      rePkgCapture (exactPkgPath ext e) = some c → c.name = e.name)
    (W3 : ∀ e ∈ st.db, globMatch sigGlob (exactPkgPath ext e) = false)
    (W4 : ∀ f ∈ st.files, globMatch sigGlob f = true →
      globMatch sigGlob (withExtensionEmpty f) = false) :
    Repo_clean_up ext (Repo_clean_up ext (Repo_clean_up ext st).st).st =
      ⟨(Repo_clean_up ext (Repo_clean_up ext st).st).st, [], [], []⟩ := by
  set s1 := (Repo_clean_up ext st).st with hs1
  set s2 := (Repo_clean_up ext s1).st with hs2
  have W1s1 : s1.files.Nodup := run_files_nodup ext st W1
  have W2s1 : ∀ e ∈ s1.db, ∀ c,
      rePkgCapture (exactPkgPath ext e) = some c → c.name = e.name :=
    fun e he => W2 e (run_db_subset ext st e he)
  have W3s1 : ∀ e ∈ s1.db, globMatch sigGlob (exactPkgPath ext e) = false :=
    fun e he => W3 e (run_db_subset ext st e he)
  have W4s1 : ∀ f ∈ s1.files, globMatch sigGlob f = true →
      globMatch sigGlob (withExtensionEmpty f) = false :=
    fun f hf => W4 f (run_files_subset ext st f hf)
  have h1s1 : ∀ e ∈ s1.db, from_meta_data_ok ext s1.files e = true :=
    run_pass1_invariant ext st W2 W3
  have hD2 : s2.db = s1.db := run_db_eq_of_ok ext s1 h1s1
  have h1s2 : ∀ e ∈ s2.db, from_meta_data_ok ext s2.files e = true := by
    intro e he
    have heD1 : e ∈ s1.db := hD2 ▸ he
    have hok := h1s1 e heD1
    simp only [from_meta_data_ok, Bool.and_eq_true, decide_eq_true_eq,
      isPkgFilePath] at hok
    obtain ⟨c, hc⟩ := Option.isSome_iff_exists.mp hok.2
    have hsurv : exactPkgPath ext e ∈ s2.files :=
      exact_survives ext (s1.db.map DbEntry.name) s1.files e c hok.1 hc
        (W2s1 e heD1 c hc) (List.mem_map_of_mem DbEntry.name heD1)
        (W3s1 e heD1)
    simp [from_meta_data_ok, hsurv, isPkgFilePath, hc]
  have h2s2 : ∀ f ∈ s2.files,
      cleanUpPass2Removes ext (s2.db.map DbEntry.name) f = false := by
    intro f hf
    have hf' : f ∈ (cleanUpPass3 (s1.files.filter fun f =>
        !(cleanUpPass2Removes ext (s1.db.map DbEntry.name) f))).1 := hf
    rw [cleanUpPass3] at hf'
    have hkeep := List.of_mem_filter (cleanUpPass3Go_subset _ _ _ f hf')
    simp only [Bool.not_eq_true'] at hkeep
    rw [hD2]
    exact hkeep
  have h3s2 : ∀ f ∈ s2.files, globMatch sigGlob f = true →
      withExtensionEmpty f ∈ s2.files :=
    run_pass3_closed ext s1 W1s1 W4s1
  exact clean_up_noop ext s2 h1s2 h2s2 h3s2

/-- Witness for `clean_up_two_runs_fixed_point` on the counterexample
state: after two runs the third changes nothing. -/
theorem clean_up_two_runs_fixed_point_witness :
    Repo_clean_up ".pkg.tar.zst".data
        (Repo_clean_up ".pkg.tar.zst".data
          (Repo_clean_up ".pkg.tar.zst".data
            ⟨[⟨"foo".data, "1.0-1".data, "x86_64".data⟩],
              ["foo-2.0-1-x86_64.pkg.tar.zst".data]⟩).st).st =
      ⟨(Repo_clean_up ".pkg.tar.zst".data
          (Repo_clean_up ".pkg.tar.zst".data
            ⟨[⟨"foo".data, "1.0-1".data, "x86_64".data⟩],
              ["foo-2.0-1-x86_64.pkg.tar.zst".data]⟩).st).st,
        [], [], []⟩ :=
  clean_up_two_runs_fixed_point ".pkg.tar.zst".data
    ⟨[⟨"foo".data, "1.0-1".data, "x86_64".data⟩],
      ["foo-2.0-1-x86_64.pkg.tar.zst".data]⟩
    (by decide)
    (by
      intro e he c hc
      rw [List.mem_singleton] at he
      subst he
      rw [show rePkgCapture (exactPkgPath ".pkg.tar.zst".data
          ⟨"foo".data, "1.0-1".data, "x86_64".data⟩) =
          some ⟨[], "foo".data, "1.0".data, "1".data, "x86_64".data,
            ".pkg.tar.zst".data⟩ from by decide] at hc
      injection hc with hc
      rw [← hc])
    (by decide)
    (by decide)

end Repman
